import Mathlib

/-!
Verification of the webrun-files virtual filesystem abstraction.

The definitions below are shallow embeddings of the TypeScript sources:
  * path utilities (`normalize-path.ts`, `path-utils.ts`),
  * the in-memory backend (`mem-files-api.ts`): an insertion-ordered map
    from normalized paths to entries, mirroring JavaScript `Map` semantics,
  * the convenience wrapper (`files-api.ts`),
  * the S3 file handle (`s3-file-handle.ts`): the streaming multipart
    upload is modelled against an explicit S3 world state with an injected
    failure oracle for the network calls.

Bytes are natural numbers, byte buffers are `List Nat`, streams of chunks
are `List (List Nat)`, and `Date.now()` is an explicit `now` parameter.
-/

/-- Character-level split, mirroring JavaScript `String.prototype.split`
with a one-character separator (`"".split(sep)` is `[""]`). -/
def chsplit (sep : Char) : List Char → List (List Char)
  | [] => [[]]
  | c :: rest =>
    let r := chsplit sep rest
    if c = sep then [] :: r else (c :: r.headD []) :: r.tail

/-- JavaScript `path.split("/")`. -/
def splitSlash (s : String) : List String :=
  (chsplit '/' s.data).map String.mk

/-- JavaScript `String.prototype.startsWith`. -/
def strStartsWith (s pfx : String) : Bool :=
  pfx.data.isPrefixOf s.data

/-- JavaScript `String.prototype.length` (characters). -/
def strLen (s : String) : Nat :=
  s.data.length

/-- JavaScript `String.prototype.substring(n)`. -/
def strDrop (s : String) (n : Nat) : String :=
  String.mk (s.data.drop n)

/-- `segments.join("/")`. -/
def joinSegs : List String → String
  | [] => ""
  | [s] => s
  | s :: rest => s ++ "/" ++ joinSegs rest

/-- `normalizePath` from `normalize-path.ts`: split on `/`, drop empty and
`.` segments, re-join with a leading slash, `/` for an empty result. -/
def normalizePath (filePath : String) : String :=
  let segments := (splitSlash filePath).filter
    (fun s => decide (s ≠ "") && decide (s ≠ "."))
  if segments = [] then "/" else "/" ++ joinSegs segments

/-- `basename` from `path-utils.ts` (without the optional extension
argument, which the embedded code never passes): the part of the
normalized path after the last `/` (the last segment of the slash-split),
or the whole string when no `/` occurs. -/
def basename (path : String) : String :=
  ((splitSlash (normalizePath path)).getLast?).getD (normalizePath path)

/-- `joinPath` from `path-utils.ts` applied to two segments, as used by
`MemFilesApi.list`: join with `/` and normalize. -/
def joinPath2 (a b : String) : String :=
  normalizePath (a ++ "/" ++ b)

/-- Entry kinds (`"file"` / `"directory"` strings in the source). -/
inductive EKind where
  | file
  | directory
deriving DecidableEq, Repr

/-- An entry of the in-memory store (`FileEntry` / `DirEntry` in
`mem-files-api.ts`). -/
inductive Entry where
  | file (content : List Nat) (lastModified : Nat)
  | directory (lastModified : Nat)
deriving DecidableEq, Repr

/-- The in-memory store: a JavaScript `Map` from path to entry, modelled
as an insertion-ordered association list with unique keys. -/
abbrev Store := List (String × Entry)

/-- `Map.get`: first (only) binding of the key. -/
def storeGet : Store → String → Option Entry
  | [], _ => none
  | p :: rest, k => if p.1 = k then some p.2 else storeGet rest k

/-- `Map.has`. -/
def storeHas (s : Store) (k : String) : Bool :=
  (storeGet s k).isSome

/-- `Map.set`: replace in place when the key exists (keeping its
position, as JavaScript `Map` does), otherwise append at the end. -/
def storeSet : Store → String → Entry → Store
  | [], k, v => [(k, v)]
  | p :: rest, k, v => if p.1 = k then (k, v) :: rest else p :: storeSet rest k v

/-- `Map.delete` (the resulting map; the returned boolean is
`storeHas`). -/
def storeDeleteKey (s : Store) (k : String) : Store :=
  s.filter (fun p => p.1 ≠ k)

/-- The `FileInfo` record returned by `list` / `stats`. -/
structure FileInfo where
  kind : EKind
  name : String
  path : String
  lastModified : Nat
  size : Option Nat
deriving DecidableEq, Repr

/-- The `FileInfo` built from a stored entry, as in `MemFilesApi.stats`
and the direct-child branch of `MemFilesApi.list`. -/
def infoOf (path : String) (e : Entry) : FileInfo :=
  match e with
  | .file c m => ⟨.file, basename path, path, m, some c.length⟩
  | .directory m => ⟨.directory, basename path, path, m, none⟩

/-- `MemFileHandle.getOrCreateFile`: the (store, content, lastModified)
after ensuring a file entry exists at `path`. -/
def getOrCreateFile (s : Store) (path : String) (now : Nat) :
    Store × List Nat × Nat :=
  match storeGet s path with
  | some (.file c m) => (s, c, m)
  | _ => (storeSet s path (.file [] now), [], now)

/-- `MemFileHandle.createWriteStream`: keep the content before `start`,
zero-pad up to `start` when it lies beyond the current content, append
the incoming chunks, store the merged buffer; returns the new store and
the number of bytes written. -/
def MemFileHandle.createWriteStream (s : Store) (path : String)
    (data : List (List Nat)) (start : Nat) (now : Nat) : Store × Nat :=
  let sc := getOrCreateFile s path now
  let content := sc.2.1
  let chunks1 : List (List Nat) :=
    if start > 0 ∧ 0 < content.length
    then [content.take (min start content.length)] else []
  let chunks2 :=
    if start > content.length
    then chunks1 ++ [List.replicate (start - content.length) 0] else chunks1
  let bytesWritten := (data.map List.length).sum
  let merged := (chunks2 ++ data).flatten
  (storeSet sc.1 path (.file merged now), bytesWritten)

/-- The chunk-yielding loop of `MemFileHandle.createReadStream`: emit
sub-buffers of at most 8192 bytes from `position` up to `actualEnd`.
Recursion is on a fuel bound; the loop advances by at least one byte per
iteration, so `actualEnd` units of fuel always suffice (the caller
passes that, and the `join` lemma below holds for any sufficient
fuel). -/
def readStreamLoop (fuel : Nat) (content : List Nat)
    (position actualEnd : Nat) : List (List Nat) :=
  match fuel with
  | 0 => []
  | fuel + 1 =>
    if position < actualEnd then
      ((content.drop position).take (min 8192 (actualEnd - position))) ::
        readStreamLoop fuel content (position + min 8192 (actualEnd - position))
          actualEnd
    else []

/-- `MemFileHandle.createReadStream`: nothing when no file entry exists;
otherwise chunks of the byte range `[start, min(end, length))`.  `end =
Infinity` (no `end` option) is `none`. -/
def MemFileHandle.createReadStream (s : Store) (path : String)
    (start : Nat) (endOpt : Option Nat) : List (List Nat) :=
  match storeGet s path with
  | some (.file content _) =>
      let actualEnd := match endOpt with
        | some e => min e content.length
        | none => content.length
      readStreamLoop actualEnd content start actualEnd
  | _ => []

/-- The listing prefix: `"/"` for the root, otherwise the normalized
path followed by `/`. -/
def listPfx (file : String) : String :=
  let normalized := normalizePath file
  if normalized = "/" then "/" else normalized ++ "/"

/-- The iteration loop of `MemFilesApi.list` over the store entries,
with the `seen` deduplication set threaded through. -/
def listAux (normalized pfx : String) (recursive : Bool) :
    Store → List String → List FileInfo
  | [], _ => []
  | (path, entry) :: rest, seen =>
    if strStartsWith path pfx then
      let relativePath := strDrop path (strLen pfx)
      let segments := splitSlash relativePath
      if segments.length = 0 ∨ segments.headD "" = "" then
        listAux normalized pfx recursive rest seen
      else if segments.length = 1 then
        if path ∈ seen then listAux normalized pfx recursive rest seen
        else infoOf path entry :: listAux normalized pfx recursive rest (path :: seen)
      else if recursive then
        if path ∈ seen then listAux normalized pfx recursive rest seen
        else infoOf path entry :: listAux normalized pfx recursive rest (path :: seen)
      else
        let dirName := segments.headD ""
        let dirPath := joinPath2 normalized dirName
        if dirPath ∈ seen then listAux normalized pfx recursive rest seen
        else ⟨.directory, dirName, dirPath, 0, none⟩ ::
          listAux normalized pfx recursive rest (dirPath :: seen)
    else listAux normalized pfx recursive rest seen

/-- `MemFilesApi.list`. -/
def MemFilesApi.list (s : Store) (file : String) (recursive : Bool) :
    List FileInfo :=
  listAux (normalizePath file) (listPfx file) recursive s []

/-- `MemFilesApi.stats`: exact entry first, then the synthetic root
directory, then an implicit directory when some stored path lies
strictly below the queried one. -/
def MemFilesApi.stats (s : Store) (file : String) : Option FileInfo :=
  let normalized := normalizePath file
  match storeGet s normalized with
  | some entry => some (infoOf normalized entry)
  | none =>
    if normalized = "/" then
      some ⟨.directory, "", "/", 0, none⟩
    else
      let pfx := normalized ++ "/"
      if s.any (fun p => strStartsWith p.1 pfx) then
        some ⟨.directory, basename normalized, normalized, 0, none⟩
      else none

/-- `MemFilesApi.remove`: delete the exact entry and every entry whose
path starts with the removed path plus `/`; true iff anything was
deleted. -/
def MemFilesApi.remove (s : Store) (file : String) : Store × Bool :=
  let normalized := normalizePath file
  let pfx := normalized ++ "/"
  let removedExact := storeHas s normalized
  let s1 := storeDeleteKey s normalized
  let removedChildren := s1.any (fun p => strStartsWith p.1 pfx)
  (s1.filter (fun p => !(strStartsWith p.1 pfx)), removedExact || removedChildren)

/-- `MemFilesApi.mkdir`: create a directory marker only when no entry of
any kind is stored at the normalized path. -/
def MemFilesApi.mkdir (s : Store) (file : String) (now : Nat) : Store :=
  let normalized := normalizePath file
  if storeHas s normalized then s else storeSet s normalized (.directory now)

/-- Wrapper `FilesApi.read` over the in-memory backend: open the handle
at the normalized path and stream its contents. -/
def FilesApi.read (s : Store) (file : String) (start : Nat)
    (endOpt : Option Nat) : List (List Nat) :=
  MemFileHandle.createReadStream s (normalizePath file) start endOpt

/-- Wrapper `FilesApi.write` over the in-memory backend: open the handle
and `createWriteStream` with default options (start 0). -/
def FilesApi.write (s : Store) (file : String) (content : List (List Nat))
    (now : Nat) : Store :=
  (MemFileHandle.createWriteStream s (normalizePath file) content 0 now).1

/-- Wrapper `FilesApi.readFile`: concatenate all chunks of a whole-file
read. -/
def FilesApi.readFile (s : Store) (file : String) : List Nat :=
  (FilesApi.read s file 0 none).flatten

/-- Wrapper `FilesApi.exists`. -/
def FilesApi.fileExists (s : Store) (file : String) : Bool :=
  (MemFilesApi.stats s file).isSome

/-- Wrapper `FilesApi.copy` over the in-memory backend (which has no
native `copy`): the read/write fallback.  The source iterates the lazy
`list` generator while writing; target entries created by the copy are
assumed not to fall under the listed source prefix, so the listing is
materialized up front. -/
def FilesApi.copy (s : Store) (source target : String) (recursive : Bool)
    (now : Nat) : Store × Bool :=
  match MemFilesApi.stats s source with
  | none => (s, false)
  | some info =>
    let sourcePath := normalizePath source
    let targetPath := normalizePath target
    if info.kind = .directory then
      let entries := MemFilesApi.list s source recursive
      let s' := entries.foldl (fun acc e =>
        if e.kind = .directory then acc
        else
          let suffix := strDrop e.path (strLen sourcePath)
          FilesApi.write acc (targetPath ++ suffix)
            [FilesApi.readFile acc e.path] now) s
      (s', true)
    else
      (FilesApi.write s targetPath [FilesApi.readFile s sourcePath] now, true)

/-- Wrapper `FilesApi.move` over the in-memory backend: copy (recursive
by default) then remove the source. -/
def FilesApi.move (s : Store) (source target : String) (now : Nat) :
    Store × Bool :=
  let c := FilesApi.copy s source target true now
  if c.2 then ((MemFilesApi.remove c.1 source).1, true) else (s, false)

/-- Failure oracle for S3 network calls: at step `k`, `some e` makes the
`k`-th `client.send` reject with error message `e`; `none` lets it
succeed. -/
abbrev FailSpec := Nat → Option String

/-- The S3 server state visible to one `S3FileHandle` (a single bucket
key): the stored object (if any), the open multipart-upload sessions
(upload id, uploaded parts as (part number, bytes)), a counter for fresh
upload ids, and the log of abort requests that were sent. -/
structure S3World where
  object : Option (List Nat)
  sessions : List (Nat × List (Nat × List Nat))
  nextUploadId : Nat
  abortAttempts : List Nat
deriving DecidableEq, Repr

/-- Bytes `[a, b)` of the stored object (the effect of a ranged GET). -/
def objBytes (w : S3World) (a b : Nat) : List Nat :=
  ((w.object.getD []).take b).drop a

/-- Server effect of `UploadPartCommand` / `UploadPartCopyCommand`:
record the part's bytes in the session. -/
def addPart (w : S3World) (uploadId partNumber : Nat) (bytes : List Nat) :
    S3World :=
  let upd := fun (s : Nat × List (Nat × List Nat)) =>
    if s.1 = uploadId then (s.1, s.2 ++ [(partNumber, bytes)]) else s
  { w with sessions := w.sessions.map upd }

/-- Server effect of `AbortMultipartUploadCommand`: drop the session. -/
def removeSession (w : S3World) (uploadId : Nat) : S3World :=
  { w with sessions := w.sessions.filter (fun s => s.1 ≠ uploadId) }

/-- Server effect of `CreateMultipartUploadCommand`: open an empty
session under a fresh upload id. -/
def mkSession (w : S3World) : S3World :=
  { w with sessions := w.sessions ++ [(w.nextUploadId, [])],
           nextUploadId := w.nextUploadId + 1 }

/-- Server effect of `CompleteMultipartUploadCommand`: replace the
object with the concatenation of the session's parts in the order of
the client's part list, and close the session.  Only here does the
stored object ever change. -/
def completeUpload (w : S3World) (uploadId : Nat) (partNums : List Nat) :
    S3World :=
  let sessionParts := ((w.sessions.find? (fun s => s.1 = uploadId)).map (·.2)).getD []
  let content := (partNums.map
    (fun n => (((sessionParts.find? (fun q => q.1 = n)).map (·.2)).getD []))).flatten
  { w with object := some content,
           sessions := w.sessions.filter (fun s => s.1 ≠ uploadId) }

/-- One `client.send`: consult the failure oracle at the current step;
on success apply the server effect, on failure leave the world
untouched (the request was rejected). -/
def sendStep (fail : FailSpec) (k : Nat) (w : S3World)
    (eff : S3World → α × S3World) : Except String α × S3World × Nat :=
  match fail k with
  | some e => (.error e, w, k + 1)
  | none => (.ok (eff w).1, (eff w).2, k + 1)

/-- Client-side state of `streamingMultipartUpload`: next part number,
ordered list of completed part numbers (`parts`), bytes written from the
caller's stream, total object size so far, and the in-memory part
buffer. -/
structure UpSt where
  partNumber : Nat
  parts : List Nat
  bytesWritten : Nat
  totalSize : Nat
  buffer : List Nat
deriving DecidableEq, Repr

/-- Result of a phase of the upload: an error, or the updated client
state; plus the world and step counter. -/
abbrev PhaseRes := Except String UpSt × S3World × Nat

/-- Sequencing of phases: stop on the first error. -/
def andThenSt (r : PhaseRes) (f : UpSt → S3World → Nat → PhaseRes) : PhaseRes :=
  match r with
  | (.error e, w, k) => (.error e, w, k)
  | (.ok st, w, k) => f st w k

/-- `this.uploadPart(...)` at a buffer-full flush point: send the part;
on success record the part number, advance the part counter and reset
the buffer. -/
def uploadPartStep (fail : FailSpec) (uploadId : Nat) (st : UpSt)
    (w : S3World) (k : Nat) : PhaseRes :=
  match sendStep fail k w (fun w => ((), addPart w uploadId st.partNumber st.buffer)) with
  | (.error e, w', k') => (.error e, w', k')
  | (.ok _, w', k') =>
    (.ok { st with parts := st.parts ++ [st.partNumber],
                   partNumber := st.partNumber + 1,
                   buffer := [] }, w', k')

/-- The `UploadPartCopy` loop preserving whole existing parts: from
`copyOffset` to `fullPartsEnd` in steps of `partSize`.  Fuel-bounded
recursion (the caller passes enough fuel for a positive part size). -/
def copyLoop (fuel : Nat) (fail : FailSpec) (uploadId partSize : Nat)
    (copyOffset fullPartsEnd : Nat) (st : UpSt) (w : S3World) (k : Nat) :
    PhaseRes :=
  match fuel with
  | 0 => (.ok st, w, k)
  | fuel + 1 =>
    if copyOffset < fullPartsEnd then
      let copyEnd := copyOffset + partSize
      match sendStep fail k w
        (fun w => ((), addPart w uploadId st.partNumber (objBytes w copyOffset copyEnd))) with
      | (.error e, w', k') => (.error e, w', k')
      | (.ok _, w', k') =>
        copyLoop fuel fail uploadId partSize copyEnd fullPartsEnd
          { st with parts := st.parts ++ [st.partNumber],
                    partNumber := st.partNumber + 1,
                    totalSize := st.totalSize + partSize } w' k'
    else (.ok st, w, k)

/-- The zero-padding loop (`start` beyond the current size): append
zeros to the buffer, flushing full parts as the buffer fills.  Fuel-
bounded recursion. -/
def padLoop (fuel : Nat) (fail : FailSpec) (uploadId partSize : Nat)
    (paddingSize paddingOffset : Nat) (st : UpSt) (w : S3World) (k : Nat) :
    PhaseRes :=
  match fuel with
  | 0 => (.ok st, w, k)
  | fuel + 1 =>
    if paddingOffset < paddingSize then
      let spaceInBuffer := partSize - st.buffer.length
      let bytesToAdd := min spaceInBuffer (paddingSize - paddingOffset)
      let st1 := { st with buffer := st.buffer ++ List.replicate bytesToAdd 0,
                           totalSize := st.totalSize + bytesToAdd }
      if st1.buffer.length ≥ partSize then
        andThenSt (uploadPartStep fail uploadId st1 w k)
          (fun st2 w2 k2 =>
            padLoop fuel fail uploadId partSize paddingSize
              (paddingOffset + bytesToAdd) st2 w2 k2)
      else
        padLoop fuel fail uploadId partSize paddingSize
          (paddingOffset + bytesToAdd) st1 w k
    else (.ok st, w, k)

/-- The inner loop consuming one incoming chunk: copy into the buffer,
flushing full parts.  Fuel-bounded recursion. -/
def chunkLoop (fuel : Nat) (fail : FailSpec) (uploadId partSize : Nat)
    (chunk : List Nat) (chunkOffset : Nat) (st : UpSt) (w : S3World)
    (k : Nat) : PhaseRes :=
  match fuel with
  | 0 => (.ok st, w, k)
  | fuel + 1 =>
    if chunkOffset < chunk.length then
      let spaceInBuffer := partSize - st.buffer.length
      let bytesToCopy := min spaceInBuffer (chunk.length - chunkOffset)
      let st1 := { st with
        buffer := st.buffer ++ (chunk.drop chunkOffset).take bytesToCopy,
        bytesWritten := st.bytesWritten + bytesToCopy,
        totalSize := st.totalSize + bytesToCopy }
      if st1.buffer.length ≥ partSize then
        andThenSt (uploadPartStep fail uploadId st1 w k)
          (fun st2 w2 k2 =>
            chunkLoop fuel fail uploadId partSize chunk
              (chunkOffset + bytesToCopy) st2 w2 k2)
      else
        chunkLoop fuel fail uploadId partSize chunk
          (chunkOffset + bytesToCopy) st1 w k
    else (.ok st, w, k)

/-- The `for await (const chunk of data)` loop. -/
def dataPhase (fail : FailSpec) (uploadId partSize : Nat) :
    List (List Nat) → UpSt → S3World → Nat → PhaseRes
  | [], st, w, k => (.ok st, w, k)
  | chunk :: rest, st, w, k =>
    andThenSt (chunkLoop (chunk.length + 1) fail uploadId partSize chunk 0 st w k)
      (fun st1 w1 k1 => dataPhase fail uploadId partSize rest st1 w1 k1)

/-- `downloadRange(fullPartsEnd, preserveEnd)` of the leftover preserved
bytes smaller than one part, merged into the buffer (no request is made
when the range is empty, mirroring the early return). -/
def remainderStep (fail : FailSpec) (fullPartsEnd preserveEnd : Nat)
    (st : UpSt) (w : S3World) (k : Nat) : PhaseRes :=
  if fullPartsEnd < preserveEnd then
    match sendStep fail k w (fun w => (objBytes w fullPartsEnd preserveEnd, w)) with
    | (.error e, w', k') => (.error e, w', k')
    | (.ok bytes, w', k') =>
      (.ok { st with buffer := st.buffer ++ bytes,
                     totalSize := st.totalSize + bytes.length }, w', k')
  else (.ok st, w, k)

/-- The preserve/pad prologue of `streamingMultipartUpload`: part-copy
whole preserved parts, download the sub-part remainder, then zero-pad up
to `start` where it exceeds the current size (or from zero when the
object is empty). -/
def preservePhase (fail : FailSpec) (uploadId size partSize start : Nat)
    (st : UpSt) (w : S3World) (k : Nat) : PhaseRes :=
  if start > 0 ∧ size > 0 then
    let preserveEnd := min start size
    let fullPartsEnd := preserveEnd / partSize * partSize
    andThenSt (copyLoop (fullPartsEnd + 1) fail uploadId partSize 0 fullPartsEnd st w k)
      (fun st1 w1 k1 =>
        andThenSt (remainderStep fail fullPartsEnd preserveEnd st1 w1 k1)
          (fun st2 w2 k2 =>
            if start > size then
              padLoop (start - size + 1) fail uploadId partSize (start - size) 0 st2 w2 k2
            else (.ok st2, w2, k2)))
  else if start > 0 then
    padLoop (start + 1) fail uploadId partSize start 0 st w k
  else (.ok st, w, k)

/-- The upload epilogue: flush the final (possibly undersized) part, and
upload one explicit empty part when no part was produced at all. -/
def flushPhase (fail : FailSpec) (uploadId : Nat) (st : UpSt)
    (w : S3World) (k : Nat) : PhaseRes :=
  andThenSt
    (if st.buffer.length > 0 then
      match sendStep fail k w (fun w => ((), addPart w uploadId st.partNumber st.buffer)) with
      | (.error e, w', k') => (.error e, w', k')
      | (.ok _, w', k') => (.ok { st with parts := st.parts ++ [st.partNumber] }, w', k')
     else (.ok st, w, k))
    (fun st1 w1 k1 =>
      if st1.parts.length = 0 then
        match sendStep fail k1 w1 (fun w => ((), addPart w uploadId 1 [])) with
        | (.error e, w2, k2) => (.error e, w2, k2)
        | (.ok _, w2, k2) => (.ok { st1 with parts := st1.parts ++ [1] }, w2, k2)
      else (.ok st1, w1, k1))

/-- Initial client state of an upload. -/
def initSt : UpSt := ⟨1, [], 0, 0, []⟩

/-- The `try` block of `streamingMultipartUpload`: preserve/pad, stream
the data, flush, then complete.  On success returns (bytesWritten,
totalSize). -/
def uploadBody (fail : FailSpec) (uploadId size partSize : Nat)
    (data : List (List Nat)) (start : Nat) (w : S3World) (k : Nat) :
    Except String (Nat × Nat) × S3World × Nat :=
  match preservePhase fail uploadId size partSize start initSt w k with
  | (.error e, w1, k1) => (.error e, w1, k1)
  | (.ok st1, w1, k1) =>
    match dataPhase fail uploadId partSize data st1 w1 k1 with
    | (.error e, w2, k2) => (.error e, w2, k2)
    | (.ok st2, w2, k2) =>
      match flushPhase fail uploadId st2 w2 k2 with
      | (.error e, w3, k3) => (.error e, w3, k3)
      | (.ok st3, w3, k3) =>
        match sendStep fail k3 w3 (fun w => ((), completeUpload w uploadId st3.parts)) with
        | (.error e, w4, k4) => (.error e, w4, k4)
        | (.ok _, w4, k4) => (.ok (st3.bytesWritten, st3.totalSize), w4, k4)

/-- `abortMultipartUpload`: the abort request is always sent (recorded
in `abortAttempts`); a failing response is swallowed. -/
def abortUpload (fail : FailSpec) (uploadId : Nat) (w : S3World) (k : Nat) :
    S3World × Nat :=
  let w0 := { w with abortAttempts := w.abortAttempts ++ [uploadId] }
  match fail k with
  | some _ => (w0, k + 1)
  | none => (removeSession w0 uploadId, k + 1)

/-- The S3 file handle: cached size and closed flag. -/
structure S3FileHandle where
  size : Nat
  closed : Bool
deriving DecidableEq, Repr

/-- `S3FileHandle.close` (a pure flag; idempotent by construction). -/
def S3FileHandle.close (h : S3FileHandle) : S3FileHandle :=
  { h with closed := true }

/-- `streamingMultipartUpload`: create the session, run the `try` body;
on success update the cached size, on any failure abort the session
(best effort) and re-raise the body's error. -/
def streamingMultipartUpload (fail : FailSpec) (h : S3FileHandle)
    (partSize : Nat) (data : List (List Nat)) (start : Nat) (w : S3World)
    (k : Nat) : Except String Nat × S3FileHandle × S3World × Nat :=
  match sendStep fail k w (fun w => (w.nextUploadId, mkSession w)) with
  | (.error e, w1, k1) => (.error e, h, w1, k1)
  | (.ok uploadId, w1, k1) =>
    match uploadBody fail uploadId h.size partSize data start w1 k1 with
    | (.ok bt, w2, k2) => (.ok bt.1, { h with size := bt.2 }, w2, k2)
    | (.error e, w2, k2) =>
      let a := abortUpload fail uploadId w2 k2
      (.error e, h, a.1, a.2)

/-- `S3FileHandle.writeStream`: reject when closed, else stream the
multipart upload. -/
def S3FileHandle.writeStream (fail : FailSpec) (h : S3FileHandle)
    (partSize : Nat) (data : List (List Nat)) (start : Nat) (w : S3World)
    (k : Nat) : Except String Nat × S3FileHandle × S3World × Nat :=
  if h.closed then (.error "FileHandle is closed", h, w, k)
  else streamingMultipartUpload fail h partSize data start w k

/-- `S3FileHandle.createReadStream`: reject when closed; a degenerate
range (`start ≥ min(end, size)` or zero size) yields nothing without a
request; otherwise a ranged GET streams the requested bytes. -/
def S3FileHandle.createReadStream (fail : FailSpec) (h : S3FileHandle)
    (start : Nat) (endOpt : Option Nat) (w : S3World) (k : Nat) :
    Except String (List (List Nat)) × S3World × Nat :=
  if h.closed then (.error "FileHandle is closed", w, k)
  else
    let actualEnd := match endOpt with
      | some e => min e h.size
      | none => h.size
    if start ≥ actualEnd ∨ h.size = 0 then (.ok [], w, k)
    else
      match sendStep fail k w (fun w => (objBytes w start actualEnd, w)) with
      | (.error e, w', k') => (.error e, w', k')
      | (.ok bytes, w', k') => (.ok [bytes], w', k')

/-- `S3FileHandle.read`: reject when closed; clamp the length to the
caller's buffer and to the object size; zero-length reads return without
a request; otherwise a ranged GET fills the buffer at `offset`. -/
def S3FileHandle.read (fail : FailSpec) (h : S3FileHandle)
    (buffer : List Nat) (offset length position : Nat) (w : S3World)
    (k : Nat) : Except String (Nat × List Nat) × S3World × Nat :=
  if h.closed then (.error "FileHandle is closed", w, k)
  else
    let len := min (min length (buffer.length - offset)) (h.size - position)
    if len = 0 then (.ok (0, buffer), w, k)
    else
      match sendStep fail k w (fun w => (objBytes w position (position + len), w)) with
      | (.error e, w', k') => (.error e, w', k')
      | (.ok bytes, w', k') =>
        let bytesToCopy := min bytes.length len
        (.ok (bytesToCopy,
          buffer.take offset ++ bytes.take bytesToCopy ++ buffer.drop (offset + bytesToCopy)),
          w', k')

/-! ## Helper lemmas -/

theorem storeGet_storeSet_self (s : Store) (k : String) (v : Entry) :
    storeGet (storeSet s k v) k = some v := by
  induction s with
  | nil => simp [storeSet, storeGet]
  | cons p rest ih =>
    by_cases h : p.1 = k
    · simp [storeSet, storeGet, h]
    · simp [storeSet, storeGet, h, ih]

theorem readStreamLoop_flatten (content : List Nat) :
    ∀ (fuel position actualEnd : Nat), actualEnd - position ≤ fuel →
    (readStreamLoop fuel content position actualEnd).flatten =
      (content.drop position).take (actualEnd - position) := by
  intro fuel
  induction fuel with
  | zero =>
    intro position actualEnd h
    have : actualEnd - position = 0 := Nat.le_zero.mp h
    simp [readStreamLoop, this]
  | succ n ih =>
    intro position actualEnd h
    by_cases hlt : position < actualEnd
    · have hle : actualEnd - (position + min 8192 (actualEnd - position)) ≤ n := by
        omega
      simp only [readStreamLoop, if_pos hlt, List.flatten_cons, ih _ _ hle]
      have hdd : (content.drop position).drop (min 8192 (actualEnd - position)) =
          content.drop (position + min 8192 (actualEnd - position)) := by
        rw [List.drop_drop, Nat.add_comm]
      rw [← hdd, ← List.take_add]
      congr 1
      omega
    · have hz : actualEnd - position = 0 := by omega
      simp [readStreamLoop, if_neg hlt, hz]

/-! ## C1: write/readFile round-trip on the in-memory backend -/

/-- C1: for every path `P`, every prior store state, and every finite
sequence of byte chunks `B` (empty chunks and all byte values included),
the wrapper's `write(P, B)` followed by `readFile(P)` on the in-memory
backend returns exactly the concatenation of `B`. -/
theorem C1_write_readFile_roundtrip (s : Store) (p : String)
    (B : List (List Nat)) (t : Nat) :
    FilesApi.readFile (FilesApi.write s p B t) p = B.flatten := by
  simp only [FilesApi.readFile, FilesApi.read, FilesApi.write,
    MemFileHandle.createWriteStream]
  simp only [gt_iff_lt, Nat.lt_irrefl, false_and, if_false, Nat.not_lt_zero,
    List.nil_append]
  simp only [MemFileHandle.createReadStream, storeGet_storeSet_self]
  rw [readStreamLoop_flatten _ _ _ _ (by omega)]
  simp

/-! ## C3: positional write at offset 6 of "Hello, World!" -/

/-- C3 counterexample: with the file content `"Hello, World!"` (13
bytes), a positional write of `"XXXXX"` at offset 6 does NOT yield
`"Hello, XXXXX"` (12 bytes, `[72,101,108,108,111,44,32,88,88,88,88,88]`)
as the claim states: byte 6 (the space, 32) is itself replaced. -/
theorem C3_counterexample :
    FilesApi.readFile
      ((MemFileHandle.createWriteStream
        (FilesApi.write []
          "/f.txt" [[72,101,108,108,111,44,32,87,111,114,108,100,33]] 0)
        (normalizePath "/f.txt") [[88,88,88,88,88]] 6 1).1) "/f.txt"
    ≠ [72,101,108,108,111,44,32,88,88,88,88,88] := by
  decide

/-- C3 amended: the same positional write yields `"Hello,XXXXX"` (11
bytes): the 6 bytes before offset 6 are unchanged and the bytes at and
after offset 6 are replaced by the new data. -/
theorem C3_amended_partial_write :
    FilesApi.readFile
      ((MemFileHandle.createWriteStream
        (FilesApi.write []
          "/f.txt" [[72,101,108,108,111,44,32,87,111,114,108,100,33]] 0)
        (normalizePath "/f.txt") [[88,88,88,88,88]] 6 1).1) "/f.txt"
    = [72,101,108,108,111,44,32,87,111,114,108,100,33].take 6
        ++ [88,88,88,88,88] := by
  decide

/-! ## C5: implicit directories and recursive removal -/

/-- C5: after writing a file at `/a/b/c.txt` into an empty store (with
no explicit mkdir), `stats`/`exists` report an existing directory for
both `/a` and `/a/b`, and `remove("/a")` deletes every stored entry
whose path is prefixed by `/a/` (here, `/a/b/c.txt`, leaving the store
empty) and returns true. -/
theorem C5_implicit_dirs_and_remove (d : List (List Nat)) (t : Nat) :
    MemFilesApi.stats (FilesApi.write [] "/a/b/c.txt" d t) "/a"
      = some ⟨.directory, "a", "/a", 0, none⟩ ∧
    MemFilesApi.stats (FilesApi.write [] "/a/b/c.txt" d t) "/a/b"
      = some ⟨.directory, "b", "/a/b", 0, none⟩ ∧
    FilesApi.fileExists (FilesApi.write [] "/a/b/c.txt" d t) "/a" = true ∧
    FilesApi.fileExists (FilesApi.write [] "/a/b/c.txt" d t) "/a/b" = true ∧
    MemFilesApi.remove (FilesApi.write [] "/a/b/c.txt" d t) "/a"
      = ([], true) := by
  have hs : FilesApi.write [] "/a/b/c.txt" d t
      = [("/a/b/c.txt", .file d.flatten t)] := by
    simp [FilesApi.write, MemFileHandle.createWriteStream, getOrCreateFile,
      storeGet, storeSet, normalizePath, splitSlash, chsplit, joinSegs]
  simp only [hs]
  refine ⟨?_, ?_, ?_, ?_, ?_⟩ <;>
    simp [MemFilesApi.stats, MemFilesApi.remove, FilesApi.fileExists,
      storeGet, storeHas, storeDeleteKey, strStartsWith, normalizePath,
      splitSlash, chsplit, joinSegs, basename]

/-! ## C7: range reads are clamped; degenerate ranges are empty -/

theorem readStreamLoop_empty (fuel : Nat) (content : List Nat)
    (position actualEnd : Nat) (h : ¬ position < actualEnd) :
    readStreamLoop fuel content position actualEnd = [] := by
  cases fuel <;> simp [readStreamLoop, h]

/-- C7: for every stored file of content `c` and every requested range,
`createReadStream {start, end}` (through the wrapper's `read`) yields
exactly the bytes of the interval `[start, min(end, size))` — an `end`
beyond the size is clamped to the size — and a degenerate range
(`start ≥ min(end, size)`, which subsumes size 0) yields an empty chunk
sequence. -/
theorem C7_range_read_clamped (s : Store) (p : String) (c : List Nat)
    (m start : Nat) (endOpt : Option Nat)
    (hfile : storeGet s (normalizePath p) = some (.file c m)) :
    (FilesApi.read s p start endOpt).flatten
      = (c.take (endOpt.elim c.length (fun e => min e c.length))).drop start ∧
    ((start ≥ endOpt.elim c.length (fun e => min e c.length) ∨ c.length = 0) →
      FilesApi.read s p start endOpt = []) := by
  constructor
  · simp only [FilesApi.read, MemFileHandle.createReadStream, hfile]
    cases endOpt with
    | none =>
      rw [readStreamLoop_flatten _ _ _ _ (by omega), List.drop_take]
      rfl
    | some e =>
      rw [readStreamLoop_flatten _ _ _ _ (by omega), List.drop_take]
      rfl
  · intro hdeg
    simp only [FilesApi.read, MemFileHandle.createReadStream, hfile]
    cases endOpt with
    | none =>
      refine readStreamLoop_empty _ _ _ _ ?_
      simp only [Option.elim] at hdeg
      show ¬ start < c.length
      omega
    | some e =>
      refine readStreamLoop_empty _ _ _ _ ?_
      simp only [Option.elim] at hdeg
      show ¬ start < min e c.length
      omega

/-- C7 witness: a 100-byte file `[0..99]`; `read {start := 90, end :=
200}` yields exactly the last 10 bytes, and `read {start := 200}` yields
nothing. -/
theorem C7_witness :
    (FilesApi.read [("/r", .file (List.range 100) 0)] "/r" 90 (some 200)).flatten
      = ((List.range 100).take
          ((some 200).elim (List.range 100).length
            (fun e => min e (List.range 100).length))).drop 90 ∧
    ((90 ≥ (some 200).elim (List.range 100).length
        (fun e => min e (List.range 100).length) ∨
        (List.range 100).length = 0) →
      FilesApi.read [("/r", .file (List.range 100) 0)] "/r" 90 (some 200) = []) :=
  C7_range_read_clamped [("/r", .file (List.range 100) 0)] "/r"
    (List.range 100) 0 90 (some 200) (by decide)

/-! ## C8: stats on the root path -/

/-- C8 counterexample: after `mkdir("/")` at time 5 (a reachable store
state), `stats("/")` returns the stored explicit marker with
`lastModified = 5`, not a synthetic directory with `lastModified = 0`:
the exact-entry lookup precedes the root special case. -/
theorem C8_counterexample :
    MemFilesApi.stats (MemFilesApi.mkdir [] "/" 5) "/"
      = some ⟨.directory, "", "/", 5, none⟩ ∧ (5 : Nat) ≠ 0 := by
  decide

/-- C8 amended: `stats("/")` returns the synthetic directory with
`lastModified = 0` exactly when no entry is stored at `"/"`; when an
explicit entry exists there (e.g. created via `mkdir("/")`), `stats`
returns that entry with its own timestamp. -/
theorem C8_amended_root_stats (s : Store) :
    MemFilesApi.stats s "/"
      = some (match storeGet s "/" with
              | some e => infoOf "/" e
              | none => ⟨.directory, "", "/", 0, none⟩) := by
  have hn : normalizePath "/" = "/" := by decide
  simp only [MemFilesApi.stats, hn]
  cases h : storeGet s "/" with
  | some e => simp [h]
  | none => simp [h]

/-! ## C10: mkdir never overwrites and touches no other path -/

theorem storeSet_append_of_not_has (s : Store) (k : String) (v : Entry)
    (h : storeHas s k = false) : storeSet s k v = s ++ [(k, v)] := by
  induction s with
  | nil => simp [storeSet]
  | cons p rest ih =>
    simp only [storeHas, storeGet] at h
    by_cases hk : p.1 = k
    · simp [hk] at h
    · simp only [storeSet, if_neg hk, List.cons_append, List.cons.injEq,
        true_and]
      exact ih (by simpa [storeHas, storeGet, hk] using h)

theorem storeGet_append_single (s : Store) (k : String) (v : Entry)
    (q : String) :
    storeGet (s ++ [(k, v)]) q
      = (match storeGet s q with
         | some e => some e
         | none => if k = q then some v else none) := by
  induction s with
  | nil => simp [storeGet]
  | cons p rest ih =>
    by_cases hq : p.1 = q
    · simp [storeGet, hq]
    · simp [storeGet, hq, ih]

/-- C10: `mkdir` on an already-occupied path (file or directory entry
alike) leaves the store completely unchanged (no replacement, no
timestamp update, no error); on an absent path it appends exactly one
directory marker, and no other path's lookup is affected. -/
theorem C10_mkdir_frame (s : Store) (p : String) (t : Nat) (q : String) :
    MemFilesApi.mkdir s p t
      = (if storeHas s (normalizePath p) then s
         else s ++ [(normalizePath p, .directory t)]) ∧
    storeGet (MemFilesApi.mkdir s p t) q
      = (if q = normalizePath p
         then some ((storeGet s (normalizePath p)).getD (.directory t))
         else storeGet s q) := by
  cases hhas : storeHas s (normalizePath p) with
  | true =>
    obtain ⟨e, he⟩ : ∃ e, storeGet s (normalizePath p) = some e := by
      cases hg : storeGet s (normalizePath p) with
      | some e => exact ⟨e, rfl⟩
      | none => simp [storeHas, hg] at hhas
    refine ⟨by simp [MemFilesApi.mkdir, hhas], ?_⟩
    by_cases hq : q = normalizePath p
    · simp [MemFilesApi.mkdir, hhas, hq, he]
    · simp [MemFilesApi.mkdir, hhas, hq]
  | false =>
    have hset := storeSet_append_of_not_has s (normalizePath p)
      (.directory t) hhas
    refine ⟨by simp [MemFilesApi.mkdir, hhas, hset], ?_⟩
    have hnone : storeGet s (normalizePath p) = none := by
      cases hg : storeGet s (normalizePath p) with
      | some e => simp [storeHas, hg] at hhas
      | none => rfl
    by_cases hq : q = normalizePath p
    · subst hq
      simp [MemFilesApi.mkdir, hhas, hset, storeGet_append_single, hnone]
    · have hmk : MemFilesApi.mkdir s p t
          = s ++ [(normalizePath p, Entry.directory t)] := by
        simp [MemFilesApi.mkdir, hhas, hset]
      rw [hmk, storeGet_append_single, if_neg hq]
      have hne : ¬ (normalizePath p = q) := fun h => hq h.symm
      cases hg : storeGet s q with
      | some e => rfl
      | none => simp [hne]

/-! ## C6: soft-fail on absent paths -/

theorem listAux_nil_of_no_pfx (normalized pfx : String) (recursive : Bool) :
    ∀ (entries : Store) (seen : List String),
    (∀ pe ∈ entries, strStartsWith pe.1 pfx = false) →
    listAux normalized pfx recursive entries seen = [] := by
  intro entries
  induction entries with
  | nil => intro seen _; simp [listAux]
  | cons pe rest ih =>
    intro seen hall
    obtain ⟨path, entry⟩ := pe
    have h1 : strStartsWith path pfx = false := hall (path, entry) (by simp)
    simp only [listAux, h1, Bool.false_eq_true, if_false]
    exact ih seen (fun x hx => hall x (by simp [hx]))

theorem storeDeleteKey_of_none (s : Store) (k : String)
    (h : storeGet s k = none) : storeDeleteKey s k = s := by
  induction s with
  | nil => rfl
  | cons p rest ih =>
    simp only [storeGet] at h
    by_cases hk : p.1 = k
    · simp [hk] at h
    · simp only [if_neg hk] at h
      have ihh := ih h
      simp only [storeDeleteKey] at ihh ⊢
      rw [List.filter_cons, if_pos (by simp [hk]), ihh]

/-- C6 counterexample: the root path `"/"` over the empty store has no
stored entry and no descendant entries, yet `stats` returns a directory
(not an absent result) and the wrapper's `copy` and `move` both return
`true` (the root always exists and its recursive listing is empty). -/
theorem C6_counterexample_root :
    storeGet [] (normalizePath "/") = none ∧
    ([] : Store).all
      (fun pe => !(strStartsWith pe.1 (normalizePath "/" ++ "/"))) = true ∧
    MemFilesApi.stats [] "/" = some ⟨.directory, "", "/", 0, none⟩ ∧
    FilesApi.copy [] "/" "/t" true 0 = ([], true) ∧
    FilesApi.move [] "/" "/t" 0 = ([], true) := by
  decide

/-- C6 amended: for every non-root path with no stored entry and no
descendant entry, `list` and `read`/`readFile` yield well-formed empty
sequences, `stats` is absent, and `remove`, `copy` and `move` return
`false` leaving the store unchanged. -/
theorem C6_amended_notfound_soft (s : Store) (p tgt : String) (rcv : Bool)
    (now start : Nat) (endOpt : Option Nat)
    (hroot : normalizePath p ≠ "/")
    (hnone : storeGet s (normalizePath p) = none)
    (hdesc : s.all
      (fun pe => !(strStartsWith pe.1 (normalizePath p ++ "/"))) = true) :
    MemFilesApi.list s p rcv = [] ∧
    FilesApi.read s p start endOpt = [] ∧
    FilesApi.readFile s p = [] ∧
    MemFilesApi.stats s p = none ∧
    MemFilesApi.remove s p = (s, false) ∧
    FilesApi.copy s p tgt rcv now = (s, false) ∧
    FilesApi.move s p tgt now = (s, false) := by
  have hptwise : ∀ pe ∈ s, strStartsWith pe.1 (normalizePath p ++ "/") = false := by
    intro pe hpe
    have := (List.all_eq_true.mp hdesc) pe hpe
    simpa using this
  have hany : s.any
      (fun pe => strStartsWith pe.1 (normalizePath p ++ "/")) = false := by
    rw [List.any_eq_false]
    intro pe hpe
    simp [hptwise pe hpe]
  have hlist : MemFilesApi.list s p rcv = [] := by
    unfold MemFilesApi.list
    rw [show listPfx p = normalizePath p ++ "/" from by
      simp [listPfx, if_neg hroot]]
    exact listAux_nil_of_no_pfx _ _ _ s [] hptwise
  have hread : ∀ (st : Nat) (eo : Option Nat), FilesApi.read s p st eo = [] := by
    intro st eo
    simp [FilesApi.read, MemFileHandle.createReadStream, hnone]
  have hstats : MemFilesApi.stats s p = none := by
    simp only [MemFilesApi.stats, hnone, if_neg hroot]
    simp [hany]
  have hremove : MemFilesApi.remove s p = (s, false) := by
    have hdel := storeDeleteKey_of_none s (normalizePath p) hnone
    have hfilter : s.filter
        (fun pe => !(strStartsWith pe.1 (normalizePath p ++ "/"))) = s :=
      List.filter_eq_self.mpr (fun x hx => by simp [hptwise x hx])
    simp only [MemFilesApi.remove, storeHas, hnone, Option.isSome_none, hdel,
      hany, Bool.or_false]
    rw [hfilter]
  have hcopy : ∀ r, FilesApi.copy s p tgt r now = (s, false) := by
    intro r
    simp [FilesApi.copy, hstats]
  refine ⟨hlist, hread start endOpt, ?_, hstats, hremove, hcopy rcv, ?_⟩
  · simp [FilesApi.readFile, hread 0 none]
  · simp [FilesApi.move, hcopy true]

/-- C6 witness: the store holding only `/x` and the absent path
`/nope`. -/
theorem C6_witness :
    MemFilesApi.list [("/x", .file [7] 2)] "/nope" false = [] ∧
    FilesApi.read [("/x", .file [7] 2)] "/nope" 0 none = [] ∧
    FilesApi.readFile [("/x", .file [7] 2)] "/nope" = [] ∧
    MemFilesApi.stats [("/x", .file [7] 2)] "/nope" = none ∧
    MemFilesApi.remove [("/x", .file [7] 2)] "/nope"
      = ([("/x", .file [7] 2)], false) ∧
    FilesApi.copy [("/x", .file [7] 2)] "/nope" "/t" false 0
      = ([("/x", .file [7] 2)], false) ∧
    FilesApi.move [("/x", .file [7] 2)] "/nope" "/t" 0
      = ([("/x", .file [7] 2)], false) :=
  C6_amended_notfound_soft [("/x", .file [7] 2)] "/nope" "/t" false 0 0 none
    (by decide) (by decide) (by decide)

/-! ## C4: non-recursive listing deduplicates by full path -/

theorem nodup_step {y : String} {seen lst : List String}
    (hy : y ∉ seen) (hnd : lst.Nodup) (hnotin : ∀ x ∈ lst, x ∉ y :: seen) :
    (y :: lst).Nodup ∧ ∀ x ∈ y :: lst, x ∉ seen := by
  constructor
  · exact List.nodup_cons.mpr ⟨fun hmem => (hnotin y hmem) (by simp), hnd⟩
  · intro x hx
    rcases List.mem_cons.mp hx with h | h
    · subst h; exact hy
    · exact fun hs => (hnotin x h) (by simp [hs])

theorem listAux_nodup (n pfx : String) (r : Bool) :
    ∀ (entries : Store) (seen : List String),
    ((listAux n pfx r entries seen).map (fun i => i.path)).Nodup ∧
    (∀ x ∈ (listAux n pfx r entries seen).map (fun i => i.path), x ∉ seen) := by
  intro entries
  induction entries with
  | nil => intro seen; simp [listAux]
  | cons pe rest ih =>
    intro seen
    obtain ⟨path, entry⟩ := pe
    have hinfopath : (infoOf path entry).path = path := by
      cases entry <;> rfl
    simp only [listAux]
    by_cases c0 : strStartsWith path pfx = true
    case neg => rw [if_neg c0]; exact ih seen
    case pos =>
      rw [if_pos c0]
      generalize splitSlash (strDrop path (strLen pfx)) = segs
      by_cases c1 : segs.length = 0 ∨ segs.headD "" = ""
      · rw [if_pos c1]; exact ih seen
      · rw [if_neg c1]
        by_cases c2 : segs.length = 1
        · rw [if_pos c2]
          by_cases c4 : path ∈ seen
          · rw [if_pos c4]; exact ih seen
          · rw [if_neg c4]
            have hih := ih (path :: seen)
            simp only [List.map_cons]
            rw [hinfopath]
            exact nodup_step c4 hih.1 hih.2
        · rw [if_neg c2]
          by_cases c3 : r = true
          · rw [if_pos c3]
            by_cases c4 : path ∈ seen
            · rw [if_pos c4]; exact ih seen
            · rw [if_neg c4]
              have hih := ih (path :: seen)
              simp only [List.map_cons]
              rw [hinfopath]
              exact nodup_step c4 hih.1 hih.2
          · rw [if_neg c3]
            by_cases c4 : joinPath2 n (segs.headD "") ∈ seen
            · rw [if_pos c4]; exact ih seen
            · rw [if_neg c4]
              have hih := ih (joinPath2 n (segs.headD "") :: seen)
              simp only [List.map_cons]
              exact nodup_step c4 hih.1 hih.2

theorem mem_step {d y : String} {seen m : List String}
    (h : d ∈ y :: seen ∨ d ∈ m) : d ∈ seen ∨ d ∈ y :: m := by
  rcases h with h | h
  · rcases List.mem_cons.mp h with h | h
    · exact Or.inr (by simp [h])
    · exact Or.inl h
  · exact Or.inr (List.mem_cons_of_mem _ h)

theorem listAux_mem_dir (n pfx : String) :
    ∀ (entries : Store) (seen : List String) (path : String) (entry : Entry),
    (path, entry) ∈ entries →
    strStartsWith path pfx = true →
    2 ≤ (splitSlash (strDrop path (strLen pfx))).length →
    (splitSlash (strDrop path (strLen pfx))).headD "" ≠ "" →
    joinPath2 n ((splitSlash (strDrop path (strLen pfx))).headD "") ∈ seen ∨
    joinPath2 n ((splitSlash (strDrop path (strLen pfx))).headD "")
      ∈ (listAux n pfx false entries seen).map (fun i => i.path) := by
  intro entries
  induction entries with
  | nil => intro seen path entry hmem; simp at hmem
  | cons qe rest ih =>
    intro seen path entry hmem hsw hlen hhead
    obtain ⟨q, e'⟩ := qe
    rcases List.mem_cons.mp hmem with heq | hmem
    · rw [Prod.mk.injEq] at heq
      obtain ⟨hq, he⟩ := heq
      subst hq
      subst he
      simp only [listAux]
      rw [if_pos hsw]
      have c1 : ¬ ((splitSlash (strDrop path (strLen pfx))).length = 0 ∨
          (splitSlash (strDrop path (strLen pfx))).headD "" = "") := by
        rintro (h | h)
        · omega
        · exact hhead h
      rw [if_neg c1]
      have c2 : ¬ (splitSlash (strDrop path (strLen pfx))).length = 1 := by omega
      rw [if_neg c2]
      rw [if_neg (show ¬ (false = true) by simp)]
      by_cases c4 : joinPath2 n ((splitSlash (strDrop path (strLen pfx))).headD "") ∈ seen
      · rw [if_pos c4]; exact Or.inl c4
      · rw [if_neg c4]
        right
        simp only [List.map_cons]
        exact List.mem_cons_self _ _
    · simp only [listAux]
      by_cases b0 : strStartsWith q pfx = true
      case neg =>
        rw [if_neg b0]; exact ih seen path entry hmem hsw hlen hhead
      case pos =>
        rw [if_pos b0]
        generalize splitSlash (strDrop q (strLen pfx)) = qsegs
        by_cases b1 : qsegs.length = 0 ∨ qsegs.headD "" = ""
        · rw [if_pos b1]; exact ih seen path entry hmem hsw hlen hhead
        · rw [if_neg b1]
          by_cases b2 : qsegs.length = 1
          · rw [if_pos b2]
            by_cases b4 : q ∈ seen
            · rw [if_pos b4]; exact ih seen path entry hmem hsw hlen hhead
            · rw [if_neg b4]
              have hih := ih (q :: seen) path entry hmem hsw hlen hhead
              simp only [List.map_cons]
              have hqpath : (infoOf q e').path = q := by cases e' <;> rfl
              rw [hqpath]
              exact mem_step hih
          · rw [if_neg b2]
            rw [if_neg (show ¬ (false = true) by simp)]
            by_cases b4 : joinPath2 n (qsegs.headD "") ∈ seen
            · rw [if_pos b4]; exact ih seen path entry hmem hsw hlen hhead
            · rw [if_neg b4]
              have hih := ih (joinPath2 n (qsegs.headD "") :: seen)
                path entry hmem hsw hlen hhead
              simp only [List.map_cons]
              exact mem_step hih

/-- C4: in a non-recursive listing, the first-level directory segment
derived from any stored deeper descendant is yielded exactly once —
deduplication is by the intermediate directory's own full path, shared
between the direct-child pass and the implied-directory pass, so a path
that is both an explicit stored child and the first segment of deeper
descendants appears exactly once regardless of iteration order. -/
theorem C4_list_dedup (s : Store) (p path : String) (entry : Entry)
    (hmem : (path, entry) ∈ s)
    (hpre : strStartsWith path (listPfx p) = true)
    (hlen : 2 ≤ (splitSlash (strDrop path (strLen (listPfx p)))).length)
    (hhead : (splitSlash (strDrop path (strLen (listPfx p)))).headD "" ≠ "") :
    ((MemFilesApi.list s p false).map (fun i => i.path)).count
      (joinPath2 (normalizePath p)
        ((splitSlash (strDrop path (strLen (listPfx p)))).headD "")) = 1 := by
  have hnd := (listAux_nodup (normalizePath p) (listPfx p) false s []).1
  have hm := listAux_mem_dir (normalizePath p) (listPfx p) s [] path entry
    hmem hpre hlen hhead
  rcases hm with h | h
  · simp at h
  · simp only [MemFilesApi.list]
    exact List.count_eq_one_of_mem hnd h

/-- C4 witness: `/d/sub` is both an explicit stored directory (a direct
child of `/d`) and the first segment of the deeper descendants
`/d/sub/z.txt` and `/d/sub/w.txt`; the non-recursive listing of `/d`
yields `/d/sub` exactly once. -/
theorem C4_witness :
    ((MemFilesApi.list
        [("/d/sub", .directory 3), ("/d/sub/z.txt", .file [1] 4),
         ("/d/sub/w.txt", .file [2] 5)] "/d" false).map
      (fun i => i.path)).count
      (joinPath2 (normalizePath "/d")
        ((splitSlash (strDrop "/d/sub/z.txt" (strLen (listPfx "/d")))).headD "")) = 1 :=
  C4_list_dedup
    [("/d/sub", .directory 3), ("/d/sub/z.txt", .file [1] 4),
     ("/d/sub/w.txt", .file [2] 5)] "/d" "/d/sub/z.txt" (.file [1] 4)
    (by decide) (by decide) (by decide) (by decide)

/-! ## C9: operations on a closed S3 handle -/

/-- C9: once `close()` has been called on an S3 handle, every
`createReadStream`, `writeStream` and `read` call rejects with the error
`"FileHandle is closed"` without touching the server state, while
`close` itself stays callable any number of times (it is idempotent and
never fails). -/
theorem C9_closed_handle (fail : FailSpec) (h : S3FileHandle)
    (start partSize : Nat) (endOpt : Option Nat) (data : List (List Nat))
    (buffer : List Nat) (offset length position : Nat) (w : S3World)
    (k : Nat) :
    S3FileHandle.createReadStream fail (h.close) start endOpt w k
      = (.error "FileHandle is closed", w, k) ∧
    S3FileHandle.writeStream fail (h.close) partSize data start w k
      = (.error "FileHandle is closed", h.close, w, k) ∧
    S3FileHandle.read fail (h.close) buffer offset length position w k
      = (.error "FileHandle is closed", w, k) ∧
    (h.close).close = h.close ∧
    (h.close).closed = true := by
  refine ⟨?_, ?_, ?_, rfl, rfl⟩ <;>
    simp [S3FileHandle.close, S3FileHandle.createReadStream,
      S3FileHandle.writeStream, S3FileHandle.read]

/-! ## C2: failure of the streaming multipart upload -/

theorem sendStep_error_inv {α : Type} {fail : FailSpec} {k : Nat}
    {w : S3World} {eff : S3World → α × S3World} {e : String} {w' : S3World}
    {k' : Nat} (h : sendStep fail k w eff = (.error e, w', k')) : w' = w := by
  unfold sendStep at h
  cases hf : fail k with
  | some e2 => rw [hf] at h; injection h with h1 h2; injection h2 with h3 h4; exact h3.symm
  | none => rw [hf] at h; simp at h

theorem sendStep_ok_inv {α : Type} {fail : FailSpec} {k : Nat}
    {w : S3World} {eff : S3World → α × S3World} {a : α} {w' : S3World}
    {k' : Nat} (h : sendStep fail k w eff = (.ok a, w', k')) :
    w' = (eff w).2 := by
  unfold sendStep at h
  cases hf : fail k with
  | some e2 => rw [hf] at h; simp at h
  | none => rw [hf] at h; injection h with h1 h2; injection h2 with h3 h4; exact h3.symm

theorem addPart_object (w : S3World) (uploadId partNumber : Nat)
    (bytes : List Nat) : (addPart w uploadId partNumber bytes).object = w.object := by
  simp [addPart]

theorem andThenSt_object {r : PhaseRes} {f : UpSt → S3World → Nat → PhaseRes}
    {o : Option (List Nat)} (hr : (r.2.1).object = o)
    (hf : ∀ st w k, ((f st w k).2.1).object = w.object) :
    ((andThenSt r f).2.1).object = o := by
  obtain ⟨res, w, k⟩ := r
  cases res with
  | error e => simpa [andThenSt] using hr
  | ok st =>
    simp only [andThenSt]
    rw [hf st w k]
    simpa using hr

theorem uploadPartStep_object (fail : FailSpec) (uploadId : Nat) (st : UpSt)
    (w : S3World) (k : Nat) :
    ((uploadPartStep fail uploadId st w k).2.1).object = w.object := by
  unfold uploadPartStep
  split
  · next e w' k' heq => simp [sendStep_error_inv heq]
  · next u w' k' heq => simp [sendStep_ok_inv heq, addPart_object]

theorem copyLoop_object (fail : FailSpec) (uploadId partSize : Nat) :
    ∀ (fuel copyOffset fullPartsEnd : Nat) (st : UpSt) (w : S3World) (k : Nat),
    ((copyLoop fuel fail uploadId partSize copyOffset fullPartsEnd st w k).2.1).object
      = w.object := by
  intro fuel
  induction fuel with
  | zero => intro _ _ _ _ _; simp [copyLoop]
  | succ fl ih =>
    intro copyOffset fullPartsEnd st w k
    unfold copyLoop
    split
    · dsimp only
      split
      · next e w' k' heq => simp [sendStep_error_inv heq]
      · next u w' k' heq =>
        rw [ih]
        simp [sendStep_ok_inv heq, addPart_object]
    · simp

theorem padLoop_object (fail : FailSpec) (uploadId partSize paddingSize : Nat) :
    ∀ (fuel paddingOffset : Nat) (st : UpSt) (w : S3World) (k : Nat),
    ((padLoop fuel fail uploadId partSize paddingSize paddingOffset st w k).2.1).object
      = w.object := by
  intro fuel
  induction fuel with
  | zero => intro _ _ _ _; simp [padLoop]
  | succ fl ih =>
    intro paddingOffset st w k
    unfold padLoop
    split
    · dsimp only
      split
      · exact andThenSt_object (uploadPartStep_object ..) (fun st w k => ih _ st w k)
      · exact ih _ _ _ _
    · simp

theorem chunkLoop_object (fail : FailSpec) (uploadId partSize : Nat)
    (chunk : List Nat) :
    ∀ (fuel chunkOffset : Nat) (st : UpSt) (w : S3World) (k : Nat),
    ((chunkLoop fuel fail uploadId partSize chunk chunkOffset st w k).2.1).object
      = w.object := by
  intro fuel
  induction fuel with
  | zero => intro _ _ _ _; simp [chunkLoop]
  | succ fl ih =>
    intro chunkOffset st w k
    unfold chunkLoop
    split
    · dsimp only
      split
      · exact andThenSt_object (uploadPartStep_object ..) (fun st w k => ih _ st w k)
      · exact ih _ _ _ _
    · simp

theorem dataPhase_object (fail : FailSpec) (uploadId partSize : Nat) :
    ∀ (data : List (List Nat)) (st : UpSt) (w : S3World) (k : Nat),
    ((dataPhase fail uploadId partSize data st w k).2.1).object = w.object := by
  intro data
  induction data with
  | nil => intro _ _ _; simp [dataPhase]
  | cons chunk rest ih =>
    intro st w k
    unfold dataPhase
    exact andThenSt_object (chunkLoop_object ..) (fun st w k => ih st w k)

theorem remainderStep_object (fail : FailSpec) (fullPartsEnd preserveEnd : Nat)
    (st : UpSt) (w : S3World) (k : Nat) :
    ((remainderStep fail fullPartsEnd preserveEnd st w k).2.1).object = w.object := by
  unfold remainderStep
  split
  · split
    · next e w' k' heq => simp [sendStep_error_inv heq]
    · next bytes w' k' heq =>
      have hw := sendStep_ok_inv heq
      simp [hw]
  · simp

theorem preservePhase_object (fail : FailSpec) (uploadId size partSize start : Nat)
    (st : UpSt) (w : S3World) (k : Nat) :
    ((preservePhase fail uploadId size partSize start st w k).2.1).object = w.object := by
  unfold preservePhase
  split
  · refine andThenSt_object (copyLoop_object ..) (fun st1 w1 k1 => ?_)
    refine andThenSt_object (remainderStep_object ..) (fun st2 w2 k2 => ?_)
    split
    · exact padLoop_object ..
    · simp
  · split
    · exact padLoop_object ..
    · simp

theorem flushPhase_object (fail : FailSpec) (uploadId : Nat) (st : UpSt)
    (w : S3World) (k : Nat) :
    ((flushPhase fail uploadId st w k).2.1).object = w.object := by
  unfold flushPhase
  refine andThenSt_object ?_ (fun st1 w1 k1 => ?_)
  · split
    · split
      · next e w' k' heq => simp [sendStep_error_inv heq]
      · next u w' k' heq => simp [sendStep_ok_inv heq, addPart_object]
    · simp
  · split
    · split
      · next e w' k' heq => simp [sendStep_error_inv heq]
      · next u w' k' heq => simp [sendStep_ok_inv heq, addPart_object]
    · simp

theorem uploadBody_object_error (fail : FailSpec) (uploadId size partSize : Nat)
    (data : List (List Nat)) (start : Nat) (w : S3World) (k : Nat)
    (e : String) (w2 : S3World) (k2 : Nat)
    (hb : uploadBody fail uploadId size partSize data start w k
      = (.error e, w2, k2)) :
    w2.object = w.object := by
  unfold uploadBody at hb
  split at hb
  · next e1 w1 k1 heq =>
    injection hb with h1 h2
    injection h2 with h3 h4
    subst h3
    have hp := preservePhase_object fail uploadId size partSize start initSt w k
    rw [heq] at hp
    simpa using hp
  · next st1 w1 k1 heq1 =>
    have hp := preservePhase_object fail uploadId size partSize start initSt w k
    rw [heq1] at hp
    simp only at hp
    split at hb
    · next e2 w2x k2x heq2 =>
      injection hb with h1 h2
      injection h2 with h3 h4
      subst h3
      have hd := dataPhase_object fail uploadId partSize data st1 w1 k1
      rw [heq2] at hd
      simp only at hd
      rw [hd, hp]
    · next st2 w2x k2x heq2 =>
      have hd := dataPhase_object fail uploadId partSize data st1 w1 k1
      rw [heq2] at hd
      simp only at hd
      split at hb
      · next e3 w3 k3 heq3 =>
        injection hb with h1 h2
        injection h2 with h3 h4
        subst h3
        have hf := flushPhase_object fail uploadId st2 w2x k2x
        rw [heq3] at hf
        simp only at hf
        rw [hf, hd, hp]
      · next st3 w3 k3 heq3 =>
        have hf := flushPhase_object fail uploadId st2 w2x k2x
        rw [heq3] at hf
        simp only at hf
        split at hb
        · next e4 w4 k4 heq4 =>
          injection hb with h1 h2
          injection h2 with h3 h4
          subst h3
          rw [sendStep_error_inv heq4, hf, hd, hp]
        · next u w4 k4 heq4 => simp at hb

theorem abortUpload_object (fail : FailSpec) (uploadId : Nat) (w : S3World)
    (k : Nat) : ((abortUpload fail uploadId w k).1).object = w.object := by
  unfold abortUpload
  cases fail k <;> simp [removeSession]

theorem abortUpload_attempts (fail : FailSpec) (uploadId : Nat) (w : S3World)
    (k : Nat) :
    uploadId ∈ ((abortUpload fail uploadId w k).1).abortAttempts := by
  unfold abortUpload
  cases fail k <;> simp [removeSession]

/-- C2: when the `try` body of `streamingMultipartUpload` fails with
error `e` after the multipart session was created (the create call
succeeded), then (a) an abort of that session is attempted — its upload
id is recorded among the sent abort requests — with any abort failure
swallowed (the equation holds for every failure oracle, including ones
failing the abort step), (b) the original error `e` is re-raised
unchanged as the overall result, and (c) the stored object and the
handle (its cached size included) are unchanged from before the call:
only a successful final completion ever mutates the object. -/
theorem C2_abort_and_reraise (fail : FailSpec) (h : S3FileHandle)
    (partSize : Nat) (data : List (List Nat)) (start : Nat) (w : S3World)
    (k : Nat) (e : String) (w2 : S3World) (k2 : Nat)
    (hcreate : fail k = none)
    (hbody : uploadBody fail w.nextUploadId h.size partSize data start
      (mkSession w) (k + 1) = (.error e, w2, k2)) :
    streamingMultipartUpload fail h partSize data start w k
      = (.error e, h, (abortUpload fail w.nextUploadId w2 k2).1,
         (abortUpload fail w.nextUploadId w2 k2).2) ∧
    w.nextUploadId ∈ ((abortUpload fail w.nextUploadId w2 k2).1).abortAttempts ∧
    ((abortUpload fail w.nextUploadId w2 k2).1).object = w.object := by
  refine ⟨?_, abortUpload_attempts .., ?_⟩
  · unfold streamingMultipartUpload
    rw [show sendStep fail k w (fun w => (w.nextUploadId, mkSession w))
      = (.ok w.nextUploadId, mkSession w, k + 1) from by simp [sendStep, hcreate]]
    simp only [hbody]
  · have h1 := uploadBody_object_error fail w.nextUploadId h.size partSize
      data start (mkSession w) (k + 1) e w2 k2 hbody
    rw [abortUpload_object, h1]
    rfl

/-- C2 witness: a write of one 3-byte chunk with part size 4 against an
object `[9,9]`; the network fails at step 1 (the final part upload).
The upload returns the original error `"boom"`, the abort request for
upload id 7 is recorded, and the stored object is unchanged. -/
theorem C2_witness :
    streamingMultipartUpload (fun n => if n = 1 then some "boom" else none)
        ⟨0, false⟩ 4 [[1, 2, 3]] 0 ⟨some [9, 9], [], 7, []⟩ 0
      = (.error "boom", ⟨0, false⟩,
         (abortUpload (fun n => if n = 1 then some "boom" else none) 7
            ⟨some [9, 9], [(7, [])], 8, []⟩ 2).1,
         (abortUpload (fun n => if n = 1 then some "boom" else none) 7
            ⟨some [9, 9], [(7, [])], 8, []⟩ 2).2) ∧
    7 ∈ ((abortUpload (fun n => if n = 1 then some "boom" else none) 7
        ⟨some [9, 9], [(7, [])], 8, []⟩ 2).1).abortAttempts ∧
    ((abortUpload (fun n => if n = 1 then some "boom" else none) 7
        ⟨some [9, 9], [(7, [])], 8, []⟩ 2).1).object
      = (⟨some [9, 9], [], 7, []⟩ : S3World).object :=
  C2_abort_and_reraise (fun n => if n = 1 then some "boom" else none)
    ⟨0, false⟩ 4 [[1, 2, 3]] 0 ⟨some [9, 9], [], 7, []⟩ 0 "boom"
    ⟨some [9, 9], [(7, [])], 8, []⟩ 2 (by rfl) (by rfl)
